import Mathlib

/-!
Shallow embedding of the traefik_parser repository (src/log_entry.rs,
src/statistics.rs, src/file_reader.rs, src/display.rs) for verification of
its specification.  Rust strings are modelled by Lean strings; where the
source manipulates individual bytes (colon splitting, line reading,
truncation) the model works on the character list of the string, which
agrees with the byte-level source on the ASCII inputs the spec discusses.
Rust HashMap values are modelled as association lists with unique keys;
usize counters are modelled by Nat; the f64 percentage arithmetic is
modelled by exact rational arithmetic.
-/

namespace TraefikParser

/-- Model of struct TraefikLogEntry (src/log_entry.rs): one decoded log
record with optional fields. -/
structure TraefikLogEntry where
  client_addr : Option String
  client_host : Option String
  request_path : Option String
  request_method : Option String
  request_protocol : Option String
  origin_status : Option Nat
  downstream_status : Option Nat
deriving DecidableEq

/-- Model of Rust addr.rfind of the colon followed by taking
addr[..colon_pos]: the characters
strictly before the last colon, or none when the list holds no colon. -/
def beforeLastColon (cs : List Char) : Option (List Char) :=
  match cs.reverse.dropWhile (fun c => c != ':') with
  | [] => none
  | _ :: rest => some rest.reverse

/-- Model of the ClientAddr fallback branch of TraefikLogEntry::get_ip:
strip a trailing colon-port suffix when a colon is present, otherwise
return the raw address. -/
def TraefikLogEntry.addr_fallback (e : TraefikLogEntry) : Option String :=
  match e.client_addr with
  | some addr =>
    match beforeLastColon addr.data with
    | some front => some (String.mk front)
    | none => some addr
  | none => none

/-- Model of TraefikLogEntry::get_ip (src/log_entry.rs lines 38-56):
prefer a non-empty ClientHost, otherwise fall back to ClientAddr with the
port stripped. -/
def TraefikLogEntry.get_ip (e : TraefikLogEntry) : Option String :=
  match e.client_host with
  | some host => if host = "" then e.addr_fallback else some host
  | none => e.addr_fallback

/-- Model of TraefikLogEntry::get_path: the request path, defaulting to
the root path when absent. -/
def TraefikLogEntry.get_path (e : TraefikLogEntry) : String :=
  e.request_path.getD "/"

/-- Model of struct IpStats (src/statistics.rs): request count plus the
per-path counter map, the map modelled as an association list. -/
structure IpStats where
  request_count : Nat
  paths : List (String × Nat)
deriving DecidableEq

/-- Model of IpStats::new. -/
def IpStats.new : IpStats := ⟨0, []⟩

/-- Model of the HashMap update paths.entry(path).or_insert(0) += 1 on an
association list: increment the entry for the key, inserting 1 when the
key is absent. -/
def bumpPath (m : List (String × Nat)) (path : String) : List (String × Nat) :=
  match m with
  | [] => [(path, 1)]
  | (k, v) :: rest =>
    if k = path then (k, v + 1) :: rest else (k, v) :: bumpPath rest path

/-- Model of IpStats::add_request. -/
def IpStats.add_request (s : IpStats) (path : String) : IpStats :=
  { request_count := s.request_count + 1, paths := bumpPath s.paths path }

/-- Ordering used by IpStats::top_paths: descending by count.  The Rust
sort_by with comparator b.1.cmp(a.1) is a stable sort, modelled by
List.insertionSort with this total preorder. -/
def countDescPath (a b : String × Nat) : Prop := b.2 ≤ a.2

instance : DecidableRel countDescPath := fun _ _ => Nat.decLe _ _

instance : IsTotal (String × Nat) countDescPath := ⟨fun a b => Nat.le_total b.2 a.2⟩

instance : IsTrans (String × Nat) countDescPath := ⟨fun _ _ _ h1 h2 => le_trans h2 h1⟩

/-- Model of IpStats::top_paths: sort the path counters descending by
count and take the first n. -/
def IpStats.top_paths (s : IpStats) (n : Nat) : List (String × Nat) :=
  (s.paths.insertionSort countDescPath).take n

/-- Model of struct StatsCollector (src/statistics.rs): the per-IP map
modelled as an association list, plus the running total. -/
structure StatsCollector where
  stats : List (String × IpStats)
  total_requests : Nat
deriving DecidableEq

/-- Model of StatsCollector::new. -/
def StatsCollector.new : StatsCollector := ⟨[], 0⟩

/-- Model of stats.entry(ip).or_insert_with(IpStats::new) followed by
add_request on the looked-up entry. -/
def bumpIp (m : List (String × IpStats)) (ip path : String) :
    List (String × IpStats) :=
  match m with
  | [] => [(ip, IpStats.new.add_request path)]
  | (k, v) :: rest =>
    if k = ip then (k, v.add_request path) :: rest
    else (k, v) :: bumpIp rest ip path

/-- Model of StatsCollector::add_entry (src/statistics.rs lines 63-78):
skip entries without an IP, otherwise update the IP entry and increment
the total. -/
def StatsCollector.add_entry (c : StatsCollector) (e : TraefikLogEntry) :
    StatsCollector :=
  match e.get_ip with
  | none => c
  | some ip =>
    { stats := bumpIp c.stats ip e.get_path,
      total_requests := c.total_requests + 1 }

/-- Model of the percentage computation in StatsCollector::get_top_ips:
count as f64 / total as f64 * 100.0 when the total is positive, else 0.0;
the f64 arithmetic is modelled exactly over the rationals. -/
def percentageOf (total count : Nat) : ℚ :=
  if 0 < total then ((count : ℚ) / (total : ℚ)) * 100 else 0

/-- One row returned by get_top_ips: identifier, entry snapshot,
percentage. -/
abbrev IpRow := String × IpStats × ℚ

/-- Ordering used by StatsCollector::get_top_ips: descending by
request_count (stable, like Rust sort_by). -/
def countDescIp (a b : IpRow) : Prop :=
  b.2.1.request_count ≤ a.2.1.request_count

instance : DecidableRel countDescIp := fun _ _ => Nat.decLe _ _

instance : IsTotal IpRow countDescIp :=
  ⟨fun a b => Nat.le_total b.2.1.request_count a.2.1.request_count⟩

instance : IsTrans IpRow countDescIp := ⟨fun _ _ _ h1 h2 => le_trans h2 h1⟩

/-- Model of StatsCollector::get_top_ips (src/statistics.rs lines
82-101): pair each entry with its percentage, sort descending by request
count, take the first n.  The function is read-only: it takes the
collector and builds a fresh list. -/
def StatsCollector.get_top_ips (c : StatsCollector) (n : Nat) : List IpRow :=
  ((c.stats.map (fun p =>
      (p.1, p.2, percentageOf c.total_requests p.2.request_count))).insertionSort
    countDescIp).take n

/-- Model of StatsCollector::unique_ips. -/
def StatsCollector.unique_ips (c : StatsCollector) : Nat := c.stats.length

/-- Model of struct LogTailer (src/file_reader.rs): only the byte offset
is state; the file content is passed explicitly to the poll operation. -/
structure LogTailer where
  position : Nat
deriving DecidableEq

/-- Model of the read_line loop of LogTailer::read_new_lines: cut the
unread suffix into the successive chunks returned by BufRead::read_line,
each including its terminating newline except possibly the final chunk,
which is the unterminated remainder at end of file. -/
def readChunks (cs : List Char) (cur : List Char) : List (List Char) :=
  match cs with
  | [] => if cur = [] then [] else [cur.reverse]
  | c :: rest =>
    if c = '\n' then (cur.reverse ++ ['\n']) :: readChunks rest []
    else readChunks rest (c :: cur)

/-- Model of Rust str::trim: drop whitespace from both ends. -/
def rustTrim (cs : List Char) : List Char :=
  ((cs.dropWhile Char.isWhitespace).reverse.dropWhile Char.isWhitespace).reverse

/-- Model of LogTailer::read_new_lines (src/file_reader.rs lines 47-92):
when the file size does not exceed the stored position, return no lines
and keep the position; otherwise read chunk by chunk to end of file,
advancing the position by each chunk length, and return the trimmed
non-empty lines. -/
def LogTailer.read_new_lines (file : List Char) (t : LogTailer) :
    List (List Char) × LogTailer :=
  if file.length ≤ t.position then ([], t)
  else
    let chunks := readChunks (file.drop t.position) []
    let newPos := t.position + (chunks.map List.length).sum
    ((chunks.map rustTrim).filter (fun l => !l.isEmpty), ⟨newPos⟩)

/-- Model of DisplayFormatter::truncate_path (src/display.rs lines
102-109), at character level: return the path unchanged when it fits the
budget, otherwise keep the first max_len - 3 characters and append the
ellipsis marker. -/
def truncate_path (path : String) (max_len : Nat) : String :=
  if path.length ≤ max_len then path
  else String.mk (path.data.take (max_len - 3)) ++ "..."

/-- Sum of the per-path counts of one IpStats paths map. -/
def sumPaths (m : List (String × Nat)) : Nat :=
  (m.map (fun p => p.2)).sum

/-- Count stored for a key in a paths map, 0 when absent. -/
def countOf : List (String × Nat) → String → Nat
  | [], _ => 0
  | (k, v) :: rest, p => if k = p then v else countOf rest p

/-- Sum of request_count over all entries of the collector map. -/
def sumRC (m : List (String × IpStats)) : Nat :=
  (m.map (fun p => p.2.request_count)).sum

/-- Lookup of an identifier in the collector map. -/
def lookupIp : List (String × IpStats) → String → Option IpStats
  | [], _ => none
  | (k, v) :: rest, ip => if k = ip then some v else lookupIp rest ip

/-- A record carrying only a ClientHost and a RequestPath, as in the
unit tests of src/statistics.rs. -/
def demoHostEntry (host path : String) : TraefikLogEntry :=
  ⟨none, some host, some path, none, none, none, none⟩

/-- A record carrying only a ClientAddr. -/
def demoAddrEntry (addr : String) : TraefikLogEntry :=
  ⟨some addr, none, none, none, none, none, none⟩

lemma sumPaths_bumpPath (m : List (String × Nat)) (p : String) :
    sumPaths (bumpPath m p) = sumPaths m + 1 := by
  induction m with
  | nil => simp [bumpPath, sumPaths]
  | cons hd tl ih =>
    obtain ⟨k, v⟩ := hd
    by_cases h : k = p <;> simp [bumpPath, h, sumPaths] at ih ⊢ <;> omega

lemma countOf_bumpPath_self (m : List (String × Nat)) (p : String) :
    countOf (bumpPath m p) p = countOf m p + 1 := by
  induction m with
  | nil => simp [bumpPath, countOf]
  | cons hd tl ih =>
    obtain ⟨k, v⟩ := hd
    by_cases h : k = p <;> simp [bumpPath, h, countOf, ih]

lemma sumRC_bumpIp (m : List (String × IpStats)) (ip path : String) :
    sumRC (bumpIp m ip path) = sumRC m + 1 := by
  induction m with
  | nil => simp [bumpIp, sumRC, IpStats.add_request, IpStats.new]
  | cons hd tl ih =>
    obtain ⟨k, v⟩ := hd
    by_cases h : k = ip <;>
      simp [bumpIp, h, sumRC, IpStats.add_request] at ih ⊢ <;> omega

lemma lookupIp_bumpIp_self (m : List (String × IpStats)) (ip path : String) :
    (lookupIp (bumpIp m ip path) ip).isSome := by
  induction m with
  | nil => simp [bumpIp, lookupIp]
  | cons hd tl ih =>
    obtain ⟨k, v⟩ := hd
    by_cases h : k = ip <;> simp [bumpIp, h, lookupIp, ih]

lemma add_entry_preserves_inv (c : StatsCollector) (e : TraefikLogEntry)
    (h : c.total_requests = sumRC c.stats) :
    (c.add_entry e).total_requests = sumRC (c.add_entry e).stats := by
  cases hip : e.get_ip with
  | none => simpa [StatsCollector.add_entry, hip] using h
  | some ip => simp [StatsCollector.add_entry, hip, sumRC_bumpIp, h]

lemma total_eq_sumRC_foldl (entries : List TraefikLogEntry)
    (c : StatsCollector) (h : c.total_requests = sumRC c.stats) :
    (entries.foldl StatsCollector.add_entry c).total_requests
      = sumRC (entries.foldl StatsCollector.add_entry c).stats := by
  induction entries generalizing c with
  | nil => simpa using h
  | cons e tl ih => exact ih (c.add_entry e) (add_entry_preserves_inv c e h)

/-- C1: starting from StatsCollector::new, after any sequence of
add_entry calls the collector total_requests equals the sum of
request_count over all entries of its stats map. -/
theorem c1_total_requests_eq_sum (entries : List TraefikLogEntry) :
    (entries.foldl StatsCollector.add_entry StatsCollector.new).total_requests
      = sumRC (entries.foldl StatsCollector.add_entry StatsCollector.new).stats :=
  total_eq_sumRC_foldl entries StatsCollector.new rfl

/-- C2: when the file size is at most the stored position,
read_new_lines returns no lines and leaves the position unchanged, and a
second call under the same condition does the same. -/
theorem c2_no_growth_idempotent (file : List Char) (t : LogTailer)
    (h : file.length ≤ t.position) :
    LogTailer.read_new_lines file t = ([], t) ∧
    LogTailer.read_new_lines file (LogTailer.read_new_lines file t).2 = ([], t) := by
  constructor <;> simp [LogTailer.read_new_lines, h]

/-- Witness for C2 at a concrete two-character file already fully
consumed. -/
theorem c2_no_growth_idempotent_witness :
    LogTailer.read_new_lines "ab".data ⟨2⟩ = ([], ⟨2⟩) ∧
    LogTailer.read_new_lines "ab".data (LogTailer.read_new_lines "ab".data ⟨2⟩).2 = ([], ⟨2⟩) :=
  c2_no_growth_idempotent "ab".data ⟨2⟩ (by decide)

/-- C3 evaluation: on a file holding one newline-terminated line followed
by an unterminated trailing line, read_new_lines returns the trailing
partial line as well and advances the position past its bytes, to the
full file length 7 rather than 4. -/
theorem c3_partial_line_consumed :
    LogTailer.read_new_lines ("abc\ndef".data) ⟨0⟩
      = ([['a', 'b', 'c'], ['d', 'e', 'f']], ⟨7⟩) := by decide

/-- C7: a record whose client identifier is None leaves the collector
exactly unchanged under add_entry. -/
theorem c7_add_entry_none_noop (c : StatsCollector) (e : TraefikLogEntry)
    (h : e.get_ip = none) : c.add_entry e = c := by
  simp [StatsCollector.add_entry, h]

/-- Witness for C7 on a record with no host and no address, against a
non-empty collector. -/
theorem c7_add_entry_none_noop_witness :
    StatsCollector.add_entry
        ⟨[("a", ⟨1, [("/", 1)]⟩)], 1⟩
        ⟨none, none, some "/x", none, none, none, none⟩
      = ⟨[("a", ⟨1, [("/", 1)]⟩)], 1⟩ :=
  c7_add_entry_none_noop _ _ (by decide)

/-- C6: ingesting a batch of records that all carry a usable client
identifier increases total_requests by exactly the batch length. -/
theorem c6_ingest_increases_total (c : StatsCollector)
    (entries : List TraefikLogEntry)
    (h : ∀ e ∈ entries, (e.get_ip).isSome) :
    (entries.foldl StatsCollector.add_entry c).total_requests
      = c.total_requests + entries.length := by
  induction entries generalizing c with
  | nil => simp
  | cons e tl ih =>
    have he := h e (by simp)
    have htl : ∀ x ∈ tl, (x.get_ip).isSome := fun x hx => h x (by simp [hx])
    cases hip : e.get_ip with
    | none => rw [hip] at he; simp at he
    | some ip =>
      simp only [List.foldl_cons, List.length_cons]
      rw [ih (c.add_entry e) htl]
      simp [StatsCollector.add_entry, hip]
      omega

/-- Witness for C6: two host-bearing records ingested into the empty
collector yield total 2. -/
theorem c6_ingest_increases_total_witness :
    ([demoHostEntry "1.1.1.1" "/a", demoHostEntry "2.2.2.2" "/b"].foldl
        StatsCollector.add_entry StatsCollector.new).total_requests
      = StatsCollector.new.total_requests + 2 :=
  c6_ingest_increases_total StatsCollector.new _ (by decide)

/-- C10: a record with no usable host and an empty-string address gets
identifier some empty string, and add_entry aggregates it under the
empty-string key rather than skipping it. -/
theorem c10_empty_addr_aggregated (c : StatsCollector) (e : TraefikLogEntry)
    (hh : e.client_host = none ∨ e.client_host = some "")
    (ha : e.client_addr = some "") :
    e.get_ip = some "" ∧
    (c.add_entry e).total_requests = c.total_requests + 1 ∧
    (lookupIp (c.add_entry e).stats "").isSome := by
  have hip : e.get_ip = some "" := by
    rcases hh with h | h <;>
      simp [TraefikLogEntry.get_ip, h, TraefikLogEntry.addr_fallback, ha,
        beforeLastColon]
  refine ⟨hip, ?_, ?_⟩
  · simp [StatsCollector.add_entry, hip]
  · simp only [StatsCollector.add_entry, hip]
    exact lookupIp_bumpIp_self c.stats "" e.get_path

/-- Witness for C10 at a record with host absent and address the empty
string, from the empty collector. -/
theorem c10_empty_addr_aggregated_witness :
    TraefikLogEntry.get_ip (demoAddrEntry "") = some "" ∧
    (StatsCollector.new.add_entry (demoAddrEntry "")).total_requests
      = StatsCollector.new.total_requests + 1 ∧
    (lookupIp (StatsCollector.new.add_entry (demoAddrEntry "")).stats "").isSome :=
  c10_empty_addr_aggregated StatsCollector.new (demoAddrEntry "")
    (Or.inl rfl) rfl

lemma reqcount_eq_sumPaths_foldl (paths : List String) (s : IpStats)
    (h : s.request_count = sumPaths s.paths) :
    (paths.foldl IpStats.add_request s).request_count
      = sumPaths (paths.foldl IpStats.add_request s).paths := by
  induction paths generalizing s with
  | nil => simpa using h
  | cons p tl ih =>
    exact ih (s.add_request p)
      (by simp [IpStats.add_request, sumPaths_bumpPath, h])

lemma top_paths_sum_le (s : IpStats) (n : Nat) :
    (((s.top_paths n).map (fun q => q.2)).sum) ≤ sumPaths s.paths := by
  have hperm : List.Perm (s.paths.insertionSort countDescPath) s.paths :=
    List.perm_insertionSort countDescPath s.paths
  have hsub :
      List.Sublist
        (((s.paths.insertionSort countDescPath).take n).map (fun q => q.2))
        ((s.paths.insertionSort countDescPath).map (fun q => q.2)) :=
    (List.take_sublist n _).map _
  calc (((s.top_paths n).map (fun q => q.2)).sum)
      ≤ ((s.paths.insertionSort countDescPath).map (fun q => q.2)).sum :=
        hsub.sum_le_sum (by simp)
    _ = sumPaths s.paths := (hperm.map (fun q => q.2)).sum_eq

/-- C9: for IpStats values reachable by add_request from IpStats::new,
request_count equals the sum of the per-path counts; each add_request
increments request_count and the count of its path by exactly 1; and the
counts returned by top_paths never sum to more than request_count. -/
theorem c9_ipstats_invariant :
    (∀ paths : List String,
       (paths.foldl IpStats.add_request IpStats.new).request_count
         = sumPaths (paths.foldl IpStats.add_request IpStats.new).paths) ∧
    (∀ (s : IpStats) (p : String),
       (s.add_request p).request_count = s.request_count + 1 ∧
       countOf (s.add_request p).paths p = countOf s.paths p + 1) ∧
    (∀ (paths : List String) (n : Nat),
       (((paths.foldl IpStats.add_request IpStats.new).top_paths n).map
           (fun q => q.2)).sum
         ≤ (paths.foldl IpStats.add_request IpStats.new).request_count) := by
  refine ⟨fun paths => reqcount_eq_sumPaths_foldl paths IpStats.new rfl,
    fun s p => ⟨rfl, by simp [IpStats.add_request, countOf_bumpPath_self]⟩,
    fun paths n => ?_⟩
  calc (((paths.foldl IpStats.add_request IpStats.new).top_paths n).map
          (fun q => q.2)).sum
      ≤ sumPaths (paths.foldl IpStats.add_request IpStats.new).paths :=
        top_paths_sum_le _ n
    _ = (paths.foldl IpStats.add_request IpStats.new).request_count :=
        (reqcount_eq_sumPaths_foldl paths IpStats.new rfl).symm

/-- C4: get_top_ips is read-only by construction (a pure function of the
collector); it returns min n (number of entries) rows, sorted descending
by request_count, each carrying percentage 100 * request_count /
total_requests (0 when the total is 0); and on the concrete 3-vs-1
scenario it reports 75 percent before 25 percent. -/
theorem c4_get_top_ips_spec (c : StatsCollector) (n : Nat) :
    (c.get_top_ips n).length = min n c.stats.length ∧
    List.Pairwise countDescIp (c.get_top_ips n) ∧
    (∀ x ∈ c.get_top_ips n,
      x.2.2 = if c.total_requests = 0 then (0 : ℚ)
              else 100 * (x.2.1.request_count : ℚ) / (c.total_requests : ℚ)) ∧
    (([demoHostEntry "1.1.1.1" "/a", demoHostEntry "1.1.1.1" "/a",
        demoHostEntry "1.1.1.1" "/a", demoHostEntry "2.2.2.2" "/b"].foldl
          StatsCollector.add_entry StatsCollector.new).get_top_ips 10).map
        (fun r => (r.1, r.2.1.request_count, r.2.2))
      = [("1.1.1.1", 3, 75), ("2.2.2.2", 1, 25)] := by
  refine ⟨?_, ?_, ?_, ?_⟩
  · simp [StatsCollector.get_top_ips, List.length_take,
      List.length_insertionSort, List.length_map]
  · exact List.Pairwise.sublist (List.take_sublist n _)
      (List.sorted_insertionSort countDescIp _)
  · intro x hx
    have hx1 := List.mem_of_mem_take hx
    have hx2 := (List.mem_insertionSort countDescIp).mp hx1
    obtain ⟨p, hp, hfp⟩ := List.mem_map.mp hx2
    subst hfp
    by_cases ht : c.total_requests = 0
    · simp [percentageOf, ht]
    · have hpos : 0 < c.total_requests := Nat.pos_of_ne_zero ht
      simp only [percentageOf, if_pos hpos, if_neg ht]
      rw [div_mul_eq_mul_div, mul_comm]
  · have hc :
        [demoHostEntry "1.1.1.1" "/a", demoHostEntry "1.1.1.1" "/a",
          demoHostEntry "1.1.1.1" "/a", demoHostEntry "2.2.2.2" "/b"].foldl
            StatsCollector.add_entry StatsCollector.new
          = ⟨[("1.1.1.1", ⟨3, [("/a", 3)]⟩), ("2.2.2.2", ⟨1, [("/b", 1)]⟩)], 4⟩ := by
      decide
    rw [hc]
    norm_num [StatsCollector.get_top_ips, percentageOf, List.insertionSort,
      List.orderedInsert, countDescIp]

/-- Witness for C4: the percentage formula instantiated on a singleton
collector with one request. -/
theorem c4_get_top_ips_spec_witness :
    (("a", (⟨1, [("/", 1)]⟩ : IpStats), percentageOf 1 1) : IpRow).2.2
      = if (StatsCollector.mk [("a", ⟨1, [("/", 1)]⟩)] 1).total_requests = 0
        then (0 : ℚ)
        else 100 * ((("a", (⟨1, [("/", 1)]⟩ : IpStats),
                percentageOf 1 1) : IpRow).2.1.request_count : ℚ)
             / ((StatsCollector.mk [("a", ⟨1, [("/", 1)]⟩)] 1).total_requests : ℚ) :=
  (c4_get_top_ips_spec (StatsCollector.mk [("a", ⟨1, [("/", 1)]⟩)] 1) 5).2.2.1
    ("a", (⟨1, [("/", 1)]⟩ : IpStats), percentageOf 1 1)
    (by simp [StatsCollector.get_top_ips, List.insertionSort, List.orderedInsert])

lemma dropWhile_ne_colon_spec (l : List Char) (h : ':' ∈ l) :
    ∃ front rest, l.dropWhile (fun c => c != ':') = ':' :: rest ∧
      l = front ++ ':' :: rest ∧ ':' ∉ front := by
  induction l with
  | nil => cases h
  | cons a tl ih =>
    by_cases hac : a = ':'
    · subst hac
      exact ⟨[], tl, by simp [List.dropWhile], rfl, by simp⟩
    · have htl : ':' ∈ tl := by
        rcases List.mem_cons.mp h with h1 | h1
        · exact absurd h1.symm hac
        · exact h1
      obtain ⟨front, rest, h1, h2, h3⟩ := ih htl
      refine ⟨a :: front, rest, ?_, by simp [h2], ?_⟩
      · have hab : (a != ':') = true := by simpa using hac
        simp [List.dropWhile_cons, hab, h1]
      · simp [List.mem_cons, h3]
        exact fun h' => hac h'.symm

lemma beforeLastColon_some (cs : List Char) (h : ':' ∈ cs) :
    ∃ front suf, beforeLastColon cs = some front ∧
      cs = front ++ ':' :: suf ∧ ':' ∉ suf := by
  have hrev : ':' ∈ cs.reverse := by simpa using h
  obtain ⟨d, rest, h1, h2, h3⟩ := dropWhile_ne_colon_spec cs.reverse hrev
  refine ⟨rest.reverse, d.reverse, ?_, ?_, by simpa using h3⟩
  · unfold beforeLastColon
    rw [h1]
  · have h4 := congrArg List.reverse h2
    simpa using h4

lemma beforeLastColon_none (cs : List Char) (h : ':' ∉ cs) :
    beforeLastColon cs = none := by
  have hnil : cs.reverse.dropWhile (fun c => c != ':') = [] := by
    rw [List.dropWhile_eq_nil_iff]
    intro x hx
    have hxcs : x ∈ cs := by simpa using hx
    simp only [bne_iff_ne, ne_eq]
    intro heq
    exact h (heq ▸ hxcs)
  unfold beforeLastColon
  rw [hnil]

/-- C5: get_ip prefers a present non-empty ClientHost; otherwise for a
present ClientAddr it returns the part before the last colon when the
address holds a colon (the remainder of the address being the colon-free
port suffix) and the raw address when it holds none; with neither field
it returns none.  The concrete fallback cases of the spec are included. -/
theorem c5_get_ip_spec (e : TraefikLogEntry) :
    (∀ host, e.client_host = some host → host ≠ "" → e.get_ip = some host) ∧
    ((e.client_host = none ∨ e.client_host = some "") →
      (∀ addr, e.client_addr = some addr →
        if ':' ∈ addr.data then
          ∃ front suf, e.get_ip = some (String.mk front) ∧
            addr.data = front ++ ':' :: suf ∧ ':' ∉ suf
        else e.get_ip = some addr) ∧
      (e.client_addr = none → e.get_ip = none)) ∧
    (TraefikLogEntry.get_ip (demoAddrEntry "10.0.0.1:54321") = some "10.0.0.1" ∧
     TraefikLogEntry.get_ip (demoAddrEntry "10.0.0.1") = some "10.0.0.1" ∧
     TraefikLogEntry.get_ip
        ⟨some "10.0.0.1:54321", some "", none, none, none, none, none⟩
       = some "10.0.0.1") := by
  refine ⟨?_, ?_, by decide, by decide, by decide⟩
  · intro host hh hne
    simp [TraefikLogEntry.get_ip, hh, hne]
  · intro hh
    have hfb : e.get_ip = e.addr_fallback := by
      rcases hh with h | h <;> simp [TraefikLogEntry.get_ip, h]
    constructor
    · intro addr ha
      by_cases hc : ':' ∈ addr.data
      · rw [if_pos hc]
        obtain ⟨front, suf, h1, h2, h3⟩ := beforeLastColon_some addr.data hc
        refine ⟨front, suf, ?_, h2, h3⟩
        simp [hfb, TraefikLogEntry.addr_fallback, ha, h1]
      · rw [if_neg hc]
        simp [hfb, TraefikLogEntry.addr_fallback, ha,
          beforeLastColon_none addr.data hc]
    · intro ha
      simp [hfb, TraefikLogEntry.addr_fallback, ha]

/-- Witness for C5: the host branch instantiated on a concrete record. -/
theorem c5_get_ip_spec_witness :
    TraefikLogEntry.get_ip (demoHostEntry "192.168.1.100" "/api")
      = some "192.168.1.100" :=
  (c5_get_ip_spec (demoHostEntry "192.168.1.100" "/api")).1
    "192.168.1.100" rfl (by decide)

/-- C8: truncating a 37-character path to budget 20 keeps the first 17
characters and appends the three-character ellipsis marker, for total
length exactly 20; a path within the budget is returned unchanged. -/
theorem c8_truncate_spec (p : String) :
    (p.length = 37 →
      truncate_path p 20 = String.mk (p.data.take 17) ++ "..." ∧
      (truncate_path p 20).length = 20) ∧
    (p.length ≤ 20 → truncate_path p 20 = p) := by
  constructor
  · intro h37
    have hgt : ¬ p.length ≤ 20 := by omega
    have hp : p.data.length = 37 := h37
    constructor
    · simp [truncate_path, hgt]
    · simp [truncate_path, hgt, String.length_append, String.length, hp]
  · intro hle
    simp [truncate_path, hle]

/-- Witness for C8 at a concrete 37-character path. -/
theorem c8_truncate_spec_witness :
    truncate_path (String.mk (List.replicate 37 'a')) 20
        = String.mk ((String.mk (List.replicate 37 'a')).data.take 17) ++ "..." ∧
    (truncate_path (String.mk (List.replicate 37 'a')) 20).length = 20 :=
  (c8_truncate_spec (String.mk (List.replicate 37 'a'))).1 (by decide)

end TraefikParser
